import Mathlib

/-!
Verification of the UTF-2.0 benchmark core: the coupled quantum–classical
integrator (`coupled_superop.py`), its falsification predicates and the
Monte-Carlo tuning kernel (`run_f_tuning.py`, `logger.py`).  Python floats
are modelled as exact real numbers `ℝ`; rational-only CSV data is modelled
over `ℚ`; the 2×2 complex density matrix is `Matrix (Fin 2) (Fin 2) ℂ`.
-/

namespace UTF

noncomputable section

open Matrix Real

/-! ## Stability criterion (`coupled_superop.tau_crit`) -/

/-- `tau_crit(lam_max) = 1/(2*max(lam_max, 1e-8))`, embedding
`def tau_crit(lam_max): lam_max = max(lam_max, 1e-8); return 1.0/(2.0*lam_max)`. -/
def tau_crit (lam_max : ℝ) : ℝ :=
  1.0 / (2.0 * max lam_max 1e-8)

/-! ## D̂⊗F̂ coupling falsifier (`test_DF_coupling_variation.py`) -/

/-- `decoherence_channel(amplitude, gamma, dt) = amplitude * exp(-gamma*dt)`. -/
def decoherence_channel (amplitude gamma dt : ℝ) : ℝ :=
  amplitude * Real.exp (-gamma * dt)

/-- `classical_diffusion_step(E_classical, injection, diffusion=0.01)`. -/
def classical_diffusion_step (E_classical injection : ℝ)
    (diffusion : ℝ := 0.01) : ℝ :=
  E_classical + diffusion * (injection - E_classical)

/-- The `(amp, E_classical)` state of `df_coupling_simulation` after `t`
loop iterations; the loop starts from `amp = 1.0, E_classical = 0.0`. -/
def dfState (gamma coupling : ℝ) : ℕ → ℝ × ℝ
  | 0 => (1.0, 0.0)
  | t + 1 =>
    let s := dfState gamma coupling t
    let amp_next := decoherence_channel s.1 gamma 1.0
    let dE_loss := s.1 ^ 2 - amp_next ^ 2
    (amp_next, classical_diffusion_step s.2 (dE_loss * coupling))

/-- Row `t` of the array returned by `df_coupling_simulation`:
`(t, amp_next, E_classical, E_total)` recorded during iteration `t`. -/
def dfRow (gamma coupling : ℝ) (t : ℕ) : ℝ × ℝ × ℝ × ℝ :=
  let s := dfState gamma coupling (t + 1)
  (t, s.1, s.2, s.1 ^ 2 + s.2)

/-- The total-energy column `data[:, 3]` of the simulation. -/
def dfTotalEnergy (gamma coupling : ℝ) (t : ℕ) : ℝ :=
  (dfRow gamma coupling t).2.2.2

/-- `np.gradient` of a length-`n` sampled sequence: one-sided differences at
the two ends, central differences in the interior. -/
def npGradient (a : ℕ → ℝ) (n : ℕ) (i : ℕ) : ℝ :=
  if i = 0 then a 1 - a 0
  else if i = n - 1 then a (n - 1) - a (n - 2)
  else (a (i + 1) - a (i - 1)) / 2

/-- Mean of the first `n` samples of a sequence. -/
def seqMean (a : ℕ → ℝ) (n : ℕ) : ℝ :=
  (∑ i ∈ Finset.range n, a i) / n

/-- Pearson correlation coefficient `np.corrcoef(x, y)[0, 1]` of two
length-`n` sampled sequences. -/
def pearson (x y : ℕ → ℝ) (n : ℕ) : ℝ :=
  let mx := seqMean x n
  let my := seqMean y n
  (∑ i ∈ Finset.range n, (x i - mx) * (y i - my)) /
    (Real.sqrt (∑ i ∈ Finset.range n, (x i - mx) ^ 2) *
      Real.sqrt (∑ i ∈ Finset.range n, (y i - my) ^ 2))

open Classical in
/-- `falsify_DF_operator()`: runs `df_coupling_simulation()` with its
defaults (`steps=50, gamma=0.05, coupling=0.2`); returns `False` if any
total-energy sample deviates from the first by more than `1e-3`, otherwise
`False` if the Pearson correlation of `-np.gradient(amp)` against
`np.gradient(E_classical)` is below `0.8`, otherwise `True`. -/
def falsify_DF_operator : Bool :=
  let total := dfTotalEnergy 0.05 0.2
  if ∃ t < 50, |total t - total 0| > 1e-3 then false
  else
    let amp_decay := npGradient (fun t => (dfRow 0.05 0.2 t).2.1) 50
    let class_growth := npGradient (fun t => (dfRow 0.05 0.2 t).2.2.1) 50
    if pearson (fun i => -amp_decay i) class_growth 50 < 0.8 then false
    else true

/-! ## D̂ decoherence falsifier (`test_D_decoherence_violation.py`)

The density matrix in this module is a real `numpy` array, so it is
modelled over `ℝ`. -/

/-- `density_matrix(purity)`: `[[purity, 0], [0, 1-purity]]`, divided by its
trace. -/
def density_matrix (purity : ℝ) : Matrix (Fin 2) (Fin 2) ℝ :=
  let rho : Matrix (Fin 2) (Fin 2) ℝ := !![purity, 0; 0, 1 - purity]
  (Matrix.trace rho)⁻¹ • rho

/-- `decohere(rho, gamma, dt)`: multiply the two off-diagonal entries by
`p = exp(-gamma*dt)`, keep the diagonal. -/
def decohere (rho : Matrix (Fin 2) (Fin 2) ℝ) (gamma dt : ℝ) :
    Matrix (Fin 2) (Fin 2) ℝ :=
  !![rho 0 0, rho 0 1 * Real.exp (-gamma * dt);
     rho 1 0 * Real.exp (-gamma * dt), rho 1 1]

/-- `purity(rho) = Re Tr(rho @ rho)` (the array is real, so the real part
is the trace itself). -/
def purity (rho : Matrix (Fin 2) (Fin 2) ℝ) : ℝ :=
  Matrix.trace (rho * rho)

/-- The loop of `falsify_D_operator`, carrying the evolving matrix and the
previous purity; returns `False` as soon as purity increases by more than
`1e-8`, `True` if the loop completes. -/
def falsifyD_loop : ℕ → Matrix (Fin 2) (Fin 2) ℝ → ℝ → Bool
  | 0, _, _ => true
  | k + 1, rho, last_purity =>
    let rho' := decohere rho 0.2 0.5
    let p_now := purity rho'
    if p_now > last_purity + 1e-8 then false
    else falsifyD_loop k rho' p_now

/-- `falsify_D_operator(steps=10)`: evolve `density_matrix(0.9)` by
`decohere(·, gamma=0.2, dt=0.5)` and check purity never increases beyond
the `1e-8` tolerance. -/
def falsify_D_operator (steps : ℕ := 10) : Bool :=
  let rho := density_matrix 0.9
  falsifyD_loop steps rho (purity rho)

/-! ## Coupled integrator (`models/coupled_superop.py`)

The 2×2 complex density matrix is `Matrix (Fin 2) (Fin 2) ℂ`.  The
`numpy` pseudo-random draws `rng.normal(0, noise_sigma)` are modelled as
`noise_sigma * noise n` for an arbitrary input sequence `noise : ℕ → ℝ`
of standard-normal samples. -/

/-- Pauli matrix σx. -/
def σx : Matrix (Fin 2) (Fin 2) ℂ := !![0, 1; 1, 0]

/-- Pauli matrix σy. -/
def σy : Matrix (Fin 2) (Fin 2) ℂ := !![0, -Complex.I; Complex.I, 0]

/-- Pauli matrix σz. -/
def σz : Matrix (Fin 2) (Fin 2) ℂ := !![1, 0; 0, -1]

/-- `lindblad(ρ, L) = LρL† − ½(L†Lρ + ρL†L)`. -/
def lindblad (ρ L : Matrix (Fin 2) (Fin 2) ℂ) : Matrix (Fin 2) (Fin 2) ℂ :=
  L * ρ * Lᴴ - ((0.5 : ℝ) : ℂ) • (Lᴴ * L * ρ + ρ * (Lᴴ * L))

/-- `UTFParams`: the plain `@dataclass` of `coupled_superop.py` with its
defaults.  The constructor performs no validation of any field. -/
structure UTFParams where
  omega : ℝ := 1.0
  gamma : ℝ := 0.6
  lam : ℝ := 0.10
  eta : ℝ := 0.10
  dt : ℝ := 0.01
  steps : ℕ := 5000
  seed : Option ℤ := some 0
  noise_sigma : ℝ := 0.0

/-- The centered chaos modulation `ε = 0.15 * lam * (x − 0.5)` computed in
`_H_t`; the raw `lam` field is used, with no clamping. -/
def epsMod (p : UTFParams) (x : ℝ) : ℝ :=
  0.15 * p.lam * (x - 0.5)

/-- `_H_t(t, x) = 0.5*ω*σx + ε*σy` (the time argument is accepted and
unused, as in the source). -/
def H_t (p : UTFParams) (_t : ℝ) (x : ℝ) : Matrix (Fin 2) (Fin 2) ℂ :=
  ((0.5 * p.omega : ℝ) : ℂ) • σx + ((epsMod p x : ℝ) : ℂ) • σy

/-- `_logistic_step(x, r) = np.clip(r*x*(1-x), 0, 1)`. -/
def logistic_step (x r : ℝ) : ℝ :=
  min 1 (max 0 (r * x * (1.0 - x)))

/-- `_L_T(ρ, H) = -i(Hρ − ρH)`. -/
def L_T (ρ H : Matrix (Fin 2) (Fin 2) ℂ) : Matrix (Fin 2) (Fin 2) ℂ :=
  -Complex.I • (H * ρ - ρ * H)

/-- `_L_D(ρ)`: Lindblad dissipator with jump operator
`L = sqrt(max(gamma, 0)) * σz` — the rate is clamped here, at stepping
time, not at construction. -/
def L_D (p : UTFParams) (ρ : Matrix (Fin 2) (Fin 2) ℂ) :
    Matrix (Fin 2) (Fin 2) ℂ :=
  lindblad ρ (((Real.sqrt (max p.gamma 0.0) : ℝ) : ℂ) • σz)

/-- The kick coefficient `k = 0.1 * lam * xdot` of `_L_F`; again the raw
`lam` field is used. -/
def kick (p : UTFParams) (xdot : ℝ) : ℝ :=
  0.1 * p.lam * xdot

/-- `_L_F(ρ, xdot) = Kρ − ρK` with `K = i k σy`. -/
def L_F (p : UTFParams) (ρ : Matrix (Fin 2) (Fin 2) ℂ) (xdot : ℝ) :
    Matrix (Fin 2) (Fin 2) ℂ :=
  let K := (Complex.I * ((kick p xdot : ℝ) : ℂ)) • σy
  K * ρ - ρ * K

/-- `_commutator_term(ρ, Ldρ, Lfρ) = η (L_D(Lfρ) − L_F(Ldρ, xdot=0))`. -/
def commutator_term (p : UTFParams) (Ldρ Lfρ : Matrix (Fin 2) (Fin 2) ℂ) :
    Matrix (Fin 2) (Fin 2) ℂ :=
  ((p.eta : ℝ) : ℂ) • (L_D p Lfρ - L_F p Ldρ 0.0)

/-- One Euler update `ρ + dt*(L_T + L_D + L_F + L_comm)`. -/
def eulerRho (p : UTFParams) (t x xdot : ℝ) (ρ : Matrix (Fin 2) (Fin 2) ℂ) :
    Matrix (Fin 2) (Fin 2) ℂ :=
  let Ht := H_t p t x
  let LT := L_T ρ Ht
  let LD := L_D p ρ
  let LF := L_F p ρ xdot
  let Lcomm := commutator_term p LD LF
  ρ + (p.dt : ℂ) • (LT + LD + LF + Lcomm)

/-- Re-Hermitization `ρ ← ½(ρ + ρ†)`. -/
def hermitize (ρ : Matrix (Fin 2) (Fin 2) ℂ) : Matrix (Fin 2) (Fin 2) ℂ :=
  ((0.5 : ℝ) : ℂ) • (ρ + ρᴴ)

/-- Renormalization `ρ ← ρ / Re(Tr ρ)`; the source divides with no guard
against a zero or non-finite denominator. -/
def renormalize (ρ : Matrix (Fin 2) (Fin 2) ℂ) : Matrix (Fin 2) (Fin 2) ℂ :=
  (((Matrix.trace ρ).re : ℂ))⁻¹ • ρ

/-- The Euler update followed by re-Hermitization and renormalization — the
full per-step density-matrix transformation of `CoupledUTFSimulator.run`. -/
def stepRho (p : UTFParams) (t x xdot : ℝ)
    (ρ : Matrix (Fin 2) (Fin 2) ℂ) : Matrix (Fin 2) (Fin 2) ℂ :=
  renormalize (hermitize (eulerRho p t x xdot ρ))

/-- The denominator `np.trace(ρ).real` used by the renormalization of one
step. -/
def stepDenom (p : UTFParams) (t x xdot : ℝ)
    (ρ : Matrix (Fin 2) (Fin 2) ℂ) : ℝ :=
  (Matrix.trace (hermitize (eulerRho p t x xdot ρ))).re

/-- `np.clip(v, 0.0, 1.0)`. -/
def clip01 (v : ℝ) : ℝ := min 1 (max 0 v)

/-- The classical-map update of one loop iteration: a logistic step, then —
only when `noise_sigma > 0` — a Gaussian perturbation clipped back into
`[0,1]`. -/
def xNext (p : UTFParams) (noise : ℕ → ℝ) (n : ℕ) (x r : ℝ) : ℝ :=
  let x1 := logistic_step x r
  if 0 < p.noise_sigma then clip01 (x1 + p.noise_sigma * noise n) else x1

/-- The 100-iteration warm-up of the chaotic map from `x0 = 0.5 + 1e-6`
(the source also warms a second trajectory from `0.5`, which is dead code:
only `x0` is read after the loop). -/
def warmup (r : ℝ) : ℝ :=
  (fun x => logistic_step x r)^[100] (0.5 + 1e-6)

/-- The constant measurement Hamiltonian `H_base = 0.5*ω*σx`. -/
def H_base (p : UTFParams) : Matrix (Fin 2) (Fin 2) ℂ :=
  ((0.5 * p.omega : ℝ) : ℂ) • σx

/-- `|+⟩ = (1/√2) [[1],[1]]`. -/
def plusKet : Matrix (Fin 2) (Fin 1) ℂ :=
  ((1 / Real.sqrt 2 : ℝ) : ℂ) • !![1; 1]

/-- The default initial state `|+⟩⟨+|` of `run`. -/
def rhoPlus : Matrix (Fin 2) (Fin 2) ℂ := plusKet * plusKetᴴ

/-- Mean of a list of reals (`np.mean`). -/
def listMean (l : List ℝ) : ℝ := l.sum / l.length

/-- The mutable state of the `run` loop: classical variable, density
matrix, energy trace and drift trace. -/
structure RunState where
  x : ℝ
  ρ : Matrix (Fin 2) (Fin 2) ℂ
  Es : List ℝ
  drifts : List ℝ

/-- One iteration of the `run` loop: advance the classical map, take the
discrete derivative, step the density matrix, record
`E = Re Tr(ρ·H_base)`, and — once `n > 10` — record the drift against the
mean of the trailing (up to 200 samples) window `E_trace[max(0,n-200):n]`,
which excludes the current sample. -/
def runStep (p : UTFParams) (noise : ℕ → ℝ) (r : ℝ) (s : RunState) :
    RunState :=
  let n := s.Es.length
  let x := xNext p noise n s.x r
  let xdot := (x - s.x) / p.dt
  let ρ := stepRho p ((n : ℝ) * p.dt) x xdot s.ρ
  let E := (Matrix.trace (ρ * H_base p)).re
  let drifts := if 10 < n then
      s.drifts ++ [|E - listMean (s.Es.drop (n - 200))|]
    else s.drifts
  ⟨x, ρ, s.Es ++ [E], drifts⟩

/-- The state of the `run` loop after `k` iterations, starting from the
warmed-up classical value and an initial density matrix `ρ0`. -/
def stateAt (p : UTFParams) (noise : ℕ → ℝ) (r : ℝ)
    (ρ0 : Matrix (Fin 2) (Fin 2) ℂ) (k : ℕ) : RunState :=
  (runStep p noise r)^[k] ⟨warmup r, ρ0, [], []⟩

/-- `CoupledUTFSimulator.run(ρ0, r)`: the loop state after all `steps`
iterations — its `Es` field is the returned energy trace. -/
def run (p : UTFParams) (noise : ℕ → ℝ) (r : ℝ)
    (ρ0 : Matrix (Fin 2) (Fin 2) ℂ) : RunState :=
  stateAt p noise r ρ0 p.steps

/-- The classical trajectory `x` of the run loop, sampled before iteration
`n`: `xSeq 0` is the warmed-up value, `xSeq (n+1)` the value after
iteration `n`. -/
def xSeq (p : UTFParams) (noise : ℕ → ℝ) (r : ℝ) : ℕ → ℝ
  | 0 => warmup r
  | n + 1 => xNext p noise n (xSeq p noise r n) r

/-- The density-matrix trajectory of the run loop: `rhoSeq 0 = ρ0`, and
`rhoSeq (n+1)` is the state after iteration `n`. -/
def rhoSeq (p : UTFParams) (noise : ℕ → ℝ) (r : ℝ)
    (ρ0 : Matrix (Fin 2) (Fin 2) ℂ) : ℕ → Matrix (Fin 2) (Fin 2) ℂ
  | 0 => ρ0
  | n + 1 =>
    stepRho p ((n : ℝ) * p.dt) (xSeq p noise r (n + 1))
      ((xSeq p noise r (n + 1) - xSeq p noise r n) / p.dt)
      (rhoSeq p noise r ρ0 n)

/-- The energy sample recorded during iteration `n`:
`E(n) = Re Tr(ρ_{n+1} · H_base)`. -/
def ESeq (p : UTFParams) (noise : ℕ → ℝ) (r : ℝ)
    (ρ0 : Matrix (Fin 2) (Fin 2) ℂ) (n : ℕ) : ℝ :=
  (Matrix.trace (rhoSeq p noise r ρ0 (n + 1) * H_base p)).re

/-- The drift sample recorded during iteration `n` (for `n > 10`): the
absolute deviation of `E(n)` from the mean of the trailing window of the
`min n 200` previous samples. -/
def driftSpecAt (p : UTFParams) (noise : ℕ → ℝ) (r : ℝ)
    (ρ0 : Matrix (Fin 2) (Fin 2) ℂ) (n : ℕ) : ℝ :=
  |ESeq p noise r ρ0 n -
    listMean (((List.range n).map (ESeq p noise r ρ0)).drop (n - 200))|

/-! ## F̂ chaos falsifier (`test_F_false_chaos_amplification.py`) -/

/-- `logistic_map(x, r=3.7) = np.clip(r*x*(1-x), 0, 1)` of the F̂ module. -/
def logistic_map (x : ℝ) (r : ℝ := 3.7) : ℝ :=
  min 1 (max 0 (r * x * (1 - x)))

/-- The main loop of `falsify_F_operator`, carrying the remaining step
count, the loop counter `i`, the two trajectories and the running average
`E0_avg`; returns `False` on the first sustained-drift violation after
`i > 200` (the `DEBUG` branches only print and plot and are omitted). -/
def falsifyF_loop (tolerance r : ℝ) : ℕ → ℕ → ℝ → ℝ → ℝ → Bool
  | 0, _, _, _, _ => true
  | steps + 1, i, x0, x1, E0_avg =>
    let x0' := logistic_map x0 r
    let x1' := logistic_map x1 r
    let E0 := x0' ^ 2
    let E1 := x1' ^ 2
    let rel_dE := |((E0 + E1) / 2 - E0_avg) / (E0_avg + 1e-8)|
    if 200 < i ∧ rel_dE > tolerance then false
    else falsifyF_loop tolerance r steps (i + 1) x0' x1'
      (0.99 * E0_avg + 0.01 * ((E0 + E1) / 2))

/-- `falsify_F_operator(steps=1000, tolerance=0.08, r=3.7, DEBUG=False)`:
warm both trajectories up for 100 iterations from the fixed initial
conditions `x0 = 0.5`, `x1 = 0.500001`, then run the drift check.  The
function takes no `adapt` parameter and uses no randomness. -/
def falsify_F_operator (steps : ℕ := 1000) (tolerance : ℝ := 0.08)
    (r : ℝ := 3.7) : Bool :=
  let x0 := (fun x => logistic_map x r)^[100] 0.5
  let x1 := (fun x => logistic_map x r)^[100] 0.500001
  falsifyF_loop tolerance r steps 0 x0 x1 ((x0 ^ 2 + x1 ^ 2) / 2)

/-! ## Monte-Carlo sweep (`scripts/run_f_tuning.py`) -/

/-- `np.linspace(3.6, 3.8, 25)`. -/
def gridR : List ℝ :=
  (List.range 25).map (fun (i : ℕ) => 3.6 + 0.2 * (i : ℝ) / 24)

/-- `np.linspace(0.06, 0.1, 10)`. -/
def gridTol : List ℝ :=
  (List.range 10).map (fun (i : ℕ) => 0.06 + 0.04 * (i : ℝ) / 9)

/-- `np.linspace(0.003, 0.006, 5)`. -/
def gridAdapt : List ℝ :=
  (List.range 5).map (fun (i : ℕ) => 0.003 + 0.003 * (i : ℝ) / 4)

/-- One `(r, tol, adapt, ok)` tuple appended to `results` by
`run_real_sweep`. -/
structure FSweepRow where
  r : ℝ
  tolerance : ℝ
  adapt : ℝ
  passed : Bool

/-- The `results` list accumulated by `run_real_sweep(n=200, path=...)`:
for every grid point, `ok = falsify_F_operator(r=r, tolerance=tol,
DEBUG=False)` — the `adapt` coordinate is not passed to the predicate and
`steps` stays at its default `1000`. -/
def run_real_sweep_results : List FSweepRow :=
  gridR.flatMap fun r => gridTol.flatMap fun tol => gridAdapt.map fun adapt =>
    ⟨r, tol, adapt, falsify_F_operator 1000 tol r⟩

end

/-! ## Tuning kernel (`run_local_tuning` and `tuning/logger.py`)

The sweep table consumed by the kernel is decimal CSV data, modelled
exactly over `ℚ`; these definitions are fully computable. -/

/-- A row of the sweep-results table `f_sweep_results.csv` as read back by
`run_local_tuning` (columns `r, tolerance, adapt, passed`). -/
structure SweepRow where
  r : ℚ
  tolerance : ℚ
  adapt : ℚ
  passed : Bool
deriving DecidableEq

/-- The provenance metadata collected by `logger.py` (`get_git_hash`,
`get_zenodo_doi`, `get_arxiv_version` and the timestamp), modelled as an
input. -/
structure Provenance where
  timestamp : String
  git_commit : String
  zenodo_doi : String
  arxiv_version : String
deriving DecidableEq

/-- One row of the append-only log `f_tuning_history.csv`. -/
structure TuningEntry where
  timestamp : String
  git_commit : String
  zenodo_doi : String
  arxiv_version : String
  r_best : ℚ
  tolerance_best : ℚ
  adapt_best : ℚ
  num_samples : ℕ
deriving DecidableEq

/-- `log_tuning_result(best_fit, num_samples, log_path)`: build the
provenance-tagged entry and append it (mode `"a"`) to the append-only log,
returning the entry and the extended log. -/
def log_tuning_result (log : List TuningEntry) (prov : Provenance)
    (best_r best_tol best_adapt : ℚ) (num_samples : ℕ) :
    TuningEntry × List TuningEntry :=
  let entry : TuningEntry :=
    ⟨prov.timestamp, prov.git_commit, prov.zenodo_doi, prov.arxiv_version,
      best_r, best_tol, best_adapt, num_samples⟩
  (entry, log ++ [entry])

/-- `stable.loc[stable["adapt"].idxmin()]` on `stable = df[df["passed"] ==
True]`: `None` when no row passed, otherwise the first passing row
attaining the minimal `adapt` value (pandas `idxmin` returns the first
index of the minimum). -/
def selectBest (rows : List SweepRow) : Option SweepRow :=
  match rows.filter (fun q => q.passed) with
  | [] => none
  | h :: t => some (t.foldl (fun b q => if q.adapt < b.adapt then q else b) h)

/-- `run_local_tuning(csv_path)` applied to an already-materialized sweep
table: report no stable result (and leave the log untouched) when no row
passed, otherwise select the best fit and append exactly one
provenance-tagged row to the log. -/
def run_local_tuning (rows : List SweepRow) (prov : Provenance)
    (log : List TuningEntry) : Option SweepRow × List TuningEntry :=
  match selectBest rows with
  | none => (none, log)
  | some b =>
    (some b, (log_tuning_result log prov b.r b.tolerance b.adapt
      rows.length).2)

/-! ## Theorems -/

open Matrix Real

/-! ### Trace and Hermiticity facts about the generators -/

/-- The unitary term is traceless. -/
theorem trace_L_T (ρ H : Matrix (Fin 2) (Fin 2) ℂ) :
    Matrix.trace (L_T ρ H) = 0 := by
  unfold L_T
  rw [Matrix.trace_smul, Matrix.trace_sub, Matrix.trace_mul_comm]
  simp

/-- The Lindblad dissipator is traceless. -/
theorem trace_lindblad (ρ L : Matrix (Fin 2) (Fin 2) ℂ) :
    Matrix.trace (lindblad ρ L) = 0 := by
  unfold lindblad
  rw [Matrix.trace_sub, Matrix.trace_smul, Matrix.trace_add,
    Matrix.trace_mul_comm (L * ρ) (Lᴴ), Matrix.trace_mul_comm ρ (Lᴴ * L),
    ← mul_assoc]
  rw [smul_eq_mul]
  have h12 : ((0.5 : ℝ) : ℂ) = 1 / 2 := by norm_num
  rw [h12]
  ring

/-- The dephasing term is traceless. -/
theorem trace_L_D (p : UTFParams) (ρ : Matrix (Fin 2) (Fin 2) ℂ) :
    Matrix.trace (L_D p ρ) = 0 :=
  trace_lindblad ρ _

/-- The chaos-kick term is traceless. -/
theorem trace_L_F (p : UTFParams) (ρ : Matrix (Fin 2) (Fin 2) ℂ) (xdot : ℝ) :
    Matrix.trace (L_F p ρ xdot) = 0 := by
  simp only [L_F]
  rw [Matrix.trace_sub, Matrix.trace_mul_comm]
  simp

/-- The commutator cross-term is traceless. -/
theorem trace_commutator_term (p : UTFParams)
    (Ldρ Lfρ : Matrix (Fin 2) (Fin 2) ℂ) :
    Matrix.trace (commutator_term p Ldρ Lfρ) = 0 := by
  unfold commutator_term
  rw [Matrix.trace_smul, Matrix.trace_sub, trace_L_D, trace_L_F]
  simp

/-- The Euler update preserves the trace exactly. -/
theorem trace_eulerRho (p : UTFParams) (t x xdot : ℝ)
    (ρ : Matrix (Fin 2) (Fin 2) ℂ) :
    Matrix.trace (eulerRho p t x xdot ρ) = Matrix.trace ρ := by
  simp only [eulerRho]
  rw [Matrix.trace_add, Matrix.trace_smul, Matrix.trace_add,
    Matrix.trace_add, Matrix.trace_add, trace_L_T, trace_L_D, trace_L_F,
    trace_commutator_term]
  simp

/-- Re-Hermitization projects the trace onto its real part. -/
theorem trace_hermitize (A : Matrix (Fin 2) (Fin 2) ℂ) :
    Matrix.trace (hermitize A) = ((Matrix.trace A).re : ℂ) := by
  unfold hermitize
  rw [Matrix.trace_smul, Matrix.trace_add, Matrix.trace_conjTranspose,
    Complex.star_def, Complex.add_conj]
  rw [smul_eq_mul]
  have h12 : ((0.5 : ℝ) : ℂ) = 1 / 2 := by norm_num
  rw [h12]
  push_cast
  ring

/-- Re-Hermitization always yields a Hermitian matrix. -/
theorem hermitize_isHermitian (A : Matrix (Fin 2) (Fin 2) ℂ) :
    (hermitize A).IsHermitian := by
  unfold hermitize Matrix.IsHermitian
  rw [Matrix.conjTranspose_smul, Matrix.conjTranspose_add,
    Matrix.conjTranspose_conjTranspose]
  rw [Complex.star_def, Complex.conj_ofReal]
  rw [add_comm]

/-- Renormalization (division by the real scalar `Re Tr ρ`) preserves
Hermiticity. -/
theorem renormalize_isHermitian (A : Matrix (Fin 2) (Fin 2) ℂ)
    (h : A.IsHermitian) : (renormalize A).IsHermitian := by
  unfold renormalize Matrix.IsHermitian
  rw [Matrix.conjTranspose_smul, h.eq]
  congr 1
  rw [star_inv₀, Complex.star_def, Complex.conj_ofReal]

/-- Every step of the integrator produces a Hermitian matrix. -/
theorem stepRho_isHermitian (p : UTFParams) (t x xdot : ℝ)
    (ρ : Matrix (Fin 2) (Fin 2) ℂ) : (stepRho p t x xdot ρ).IsHermitian :=
  renormalize_isHermitian _ (hermitize_isHermitian _)

/-- A unit-trace matrix still has unit trace after one full step. -/
theorem stepRho_trace_one (p : UTFParams) (t x xdot : ℝ)
    (ρ : Matrix (Fin 2) (Fin 2) ℂ) (h : Matrix.trace ρ = 1) :
    Matrix.trace (stepRho p t x xdot ρ) = 1 := by
  unfold stepRho renormalize
  rw [Matrix.trace_smul, trace_hermitize, trace_eulerRho, h]
  simp

/-- A zero-trace matrix still has zero trace after one full step (the
renormalization multiplies by the inverse of a zero denominator, which in
exact arithmetic yields the zero matrix; in `numpy` it yields `NaN`s). -/
theorem stepRho_trace_zero (p : UTFParams) (t x xdot : ℝ)
    (ρ : Matrix (Fin 2) (Fin 2) ℂ) (h : Matrix.trace ρ = 0) :
    Matrix.trace (stepRho p t x xdot ρ) = 0 := by
  unfold stepRho renormalize
  rw [Matrix.trace_smul, trace_hermitize, trace_eulerRho, h]
  simp

/-- `density_matrix(p)` normalizes by a trace that is always `1`, so it is
just `[[p, 0], [0, 1-p]]`. -/
theorem density_matrix_eq (p : ℝ) :
    density_matrix p = !![p, 0; 0, 1 - p] := by
  have h : Matrix.trace !![p, (0:ℝ); 0, 1 - p] = 1 := by
    simp [Matrix.trace_fin_two]
  show (Matrix.trace !![p, (0:ℝ); 0, 1 - p])⁻¹ • !![p, (0:ℝ); 0, 1 - p] =
    !![p, 0; 0, 1 - p]
  rw [h, inv_one, one_smul]

/-- The concrete initial state of `falsify_D_operator` is fixed by one
`decohere(gamma=0.2, dt=0.5)` step: its off-diagonal entries are zero, so
multiplying them by the decay factor changes nothing. -/
theorem decohere_fixes_initial_state :
    decohere (density_matrix 0.9) 0.2 0.5 = density_matrix 0.9 := by
  rw [density_matrix_eq]
  unfold decohere
  norm_num

/-- If the evolving matrix is a fixed point of the `decohere` step, the
`falsify_D_operator` loop never sees a purity increase and returns `True`
from any starting bound at least the purity. -/
theorem falsifyD_loop_fixed (rho : Matrix (Fin 2) (Fin 2) ℝ)
    (hfix : decohere rho 0.2 0.5 = rho) :
    ∀ (k : ℕ) (last : ℝ), purity rho ≤ last → falsifyD_loop k rho last = true := by
  intro k
  induction k with
  | zero => intro last _; rfl
  | succ n ih =>
    intro last hlast
    simp only [falsifyD_loop]
    rw [hfix]
    rw [if_neg (by push_neg; linarith)]
    exact ih (purity rho) le_rfl

/-- C9: the initial state `density_matrix(0.9)` of `falsify_D_operator` has
zero off-diagonal entries; `decohere` leaves it unchanged, so the purity
`Tr(ρ²)` is exactly constant across every step, and `falsify_D_operator`
returns `True` for every step count. -/
theorem falsify_D_operator_always_true :
    ((density_matrix 0.9) 0 1 = 0 ∧ (density_matrix 0.9) 1 0 = 0) ∧
    (∀ k : ℕ,
      purity ((fun rho => decohere rho 0.2 0.5)^[k] (density_matrix 0.9)) =
        purity (density_matrix 0.9)) ∧
    (∀ steps : ℕ, falsify_D_operator steps = true) := by
  refine ⟨⟨?_, ?_⟩, ?_, ?_⟩
  · rw [density_matrix_eq]; norm_num
  · rw [density_matrix_eq]; norm_num
  · intro k
    rw [Function.iterate_fixed (f := fun rho => decohere rho 0.2 0.5)
      (x := density_matrix 0.9) decohere_fixes_initial_state k]
  · intro steps
    unfold falsify_D_operator
    exact falsifyD_loop_fixed _ decohere_fixes_initial_state steps _ le_rfl

/-- Bounds on the per-step decay factor `exp(-0.05*1.0)` of the D̂⊗F̂
simulation: it lies in `[0.95, 20/21]`. -/
theorem df_decay_factor_bounds :
    (0.95 : ℝ) ≤ Real.exp (-0.05 * 1.0) ∧ Real.exp (-0.05 * 1.0) ≤ 20 / 21 := by
  constructor
  · have h := Real.add_one_le_exp (-0.05 * 1.0 : ℝ)
    linarith
  · have h : (1.05 : ℝ) ≤ Real.exp 0.05 := by
      have := Real.add_one_le_exp (0.05 : ℝ)
      linarith
    have hpos : (0 : ℝ) < 1.05 := by norm_num
    have : Real.exp (-(0.05 : ℝ)) ≤ 1.05⁻¹ := by
      rw [Real.exp_neg]
      exact inv_anti₀ hpos h
    calc Real.exp (-0.05 * 1.0) = Real.exp (-(0.05 : ℝ)) := by norm_num
      _ ≤ 1.05⁻¹ := this
      _ = 20 / 21 := by norm_num

/-- C1 (code bug): with its default parameters `steps=50, gamma=0.05,
coupling=0.2`, the D̂⊗F̂ simulation does not conserve total energy — already
at row `t = 1` the total energy deviates from row `0` by more than `1e-3`
(the diffusion step only injects a fraction `coupling*diffusion` of the lost
quantum energy into the classical field) — and therefore
`falsify_DF_operator()` returns `False`, not `True`. -/
theorem falsify_DF_operator_returns_false :
    |dfTotalEnergy 0.05 0.2 1 - dfTotalEnergy 0.05 0.2 0| > 1e-3 ∧
      falsify_DF_operator = false := by
  obtain ⟨hz_lo, hz_hi⟩ := df_decay_factor_bounds
  set z : ℝ := Real.exp (-0.05 * 1.0) with hzdef
  have t0 : dfTotalEnergy 0.05 0.2 0 =
      (1.0 * z) ^ 2 +
        (0.0 + 0.01 * ((1.0 ^ 2 - (1.0 * z) ^ 2) * 0.2 - 0.0)) := by
    rw [hzdef]; rfl
  have t1 : dfTotalEnergy 0.05 0.2 1 =
      ((1.0 * z) * z) ^ 2 +
        ((0.0 + 0.01 * ((1.0 ^ 2 - (1.0 * z) ^ 2) * 0.2 - 0.0)) +
          0.01 * (((1.0 * z) ^ 2 - ((1.0 * z) * z) ^ 2) * 0.2 -
            (0.0 + 0.01 * ((1.0 ^ 2 - (1.0 * z) ^ 2) * 0.2 - 0.0)))) := by
    rw [hzdef]; rfl
  have hs_hi : z ^ 2 ≤ 400 / 441 := by nlinarith
  have hs_lo : (0.9025 : ℝ) ≤ z ^ 2 := by nlinarith
  have key : dfTotalEnergy 0.05 0.2 0 - dfTotalEnergy 0.05 0.2 1 > 1e-3 := by
    rw [t0, t1]
    nlinarith [mul_nonneg (sub_nonneg.2 hs_lo) (sub_nonneg.2 hs_hi),
      sq_nonneg z, sq_nonneg (z ^ 2)]
  have habs : |dfTotalEnergy 0.05 0.2 1 - dfTotalEnergy 0.05 0.2 0| > 1e-3 := by
    rw [abs_sub_comm, abs_of_pos (by linarith)]
    exact key
  refine ⟨habs, ?_⟩
  unfold falsify_DF_operator
  rw [if_pos]
  exact ⟨1, by norm_num, habs⟩

/-! ### Closed form of the run loop -/

/-- Closed form of the run-loop state after `k` iterations: the classical
variable follows `xSeq`, the density matrix follows `rhoSeq`, the energy
trace holds the samples `ESeq 0 .. ESeq (k-1)` in order, and the drift
trace holds `driftSpecAt n` exactly for the loop indices `n` with
`10 < n < k`. -/
theorem stateAt_eq (p : UTFParams) (noise : ℕ → ℝ) (r : ℝ)
    (ρ0 : Matrix (Fin 2) (Fin 2) ℂ) (k : ℕ) :
    stateAt p noise r ρ0 k =
      ⟨xSeq p noise r k, rhoSeq p noise r ρ0 k,
        (List.range k).map (ESeq p noise r ρ0),
        ((List.range k).filter (fun n => 10 < n)).map
          (driftSpecAt p noise r ρ0)⟩ := by
  induction k with
  | zero => rfl
  | succ k ih =>
    have hstep : stateAt p noise r ρ0 (k + 1) =
        runStep p noise r (stateAt p noise r ρ0 k) := by
      simp only [stateAt, Function.iterate_succ_apply']
    rw [hstep, ih]
    simp only [runStep, List.length_map, List.length_range,
      RunState.mk.injEq]
    refine ⟨rfl, rfl, ?_, ?_⟩
    · rw [List.range_succ, List.map_append]
      rfl
    · rw [List.range_succ, List.filter_append, List.map_append]
      by_cases hk : 10 < k
      · rw [if_pos hk]
        simp only [List.filter_cons, List.filter_nil, hk, decide_True,
          if_true, List.map_cons, List.map_nil]
        rfl
      · rw [if_neg hk]
        simp [hk]

/-- A unit-trace initial matrix keeps exactly unit trace along the whole
trajectory. -/
theorem rhoSeq_trace_one (p : UTFParams) (noise : ℕ → ℝ) (r : ℝ)
    (ρ0 : Matrix (Fin 2) (Fin 2) ℂ) (h : Matrix.trace ρ0 = 1) :
    ∀ n, Matrix.trace (rhoSeq p noise r ρ0 n) = 1 := by
  intro n
  induction n with
  | zero => exact h
  | succ n ih => exact stepRho_trace_one _ _ _ _ _ ih

/-- A zero-trace initial matrix keeps zero trace along the whole
trajectory, so every step's renormalization denominator is zero. -/
theorem rhoSeq_trace_zero (p : UTFParams) (noise : ℕ → ℝ) (r : ℝ)
    (ρ0 : Matrix (Fin 2) (Fin 2) ℂ) (h : Matrix.trace ρ0 = 0) :
    ∀ n, Matrix.trace (rhoSeq p noise r ρ0 n) = 0 := by
  intro n
  induction n with
  | zero => exact h
  | succ n ih => exact stepRho_trace_zero _ _ _ _ _ ih

/-- The default initial state `|+⟩⟨+|` has unit trace. -/
theorem trace_rhoPlus : Matrix.trace rhoPlus = 1 := by
  have hs : Real.sqrt 2 * Real.sqrt 2 = 2 :=
    Real.mul_self_sqrt (by norm_num)
  simp only [rhoPlus, plusKet, Matrix.trace_fin_two, Matrix.mul_apply,
    Matrix.conjTranspose_apply, Matrix.smul_apply, Fin.sum_univ_one]
  norm_num [Complex.ext_iff]
  linear_combination hs / 2

/-- C4: for every run started from a unit-trace initial matrix, the
density matrix is Hermitian and has exactly unit trace after every step:
re-Hermitization always returns a Hermitian matrix, the Euler update
preserves the trace, and renormalization then divides by exactly 1. -/
theorem run_density_matrix_invariants (p : UTFParams) (noise : ℕ → ℝ)
    (r : ℝ) (ρ0 : Matrix (Fin 2) (Fin 2) ℂ) (h : Matrix.trace ρ0 = 1)
    (k : ℕ) :
    ((stateAt p noise r ρ0 (k + 1)).ρ).IsHermitian ∧
      Matrix.trace ((stateAt p noise r ρ0 (k + 1)).ρ) = 1 := by
  rw [stateAt_eq]
  constructor
  · show (rhoSeq p noise r ρ0 (k + 1)).IsHermitian
    exact stepRho_isHermitian _ _ _ _ _
  · exact rhoSeq_trace_one p noise r ρ0 h (k + 1)

/-- C4 witness: the invariants hold after the first step of a run with the
default parameters, zero noise draws, `r = 3.8` and the default initial
state `|+⟩⟨+|`. -/
theorem run_density_matrix_invariants_witness :
    Matrix.trace rhoPlus = 1 ∧
      (((stateAt {} (fun _ => 0) 3.8 rhoPlus 1).ρ).IsHermitian ∧
        Matrix.trace ((stateAt {} (fun _ => 0) 3.8 rhoPlus 1).ρ) = 1) :=
  ⟨trace_rhoPlus,
    run_density_matrix_invariants {} (fun _ => 0) 3.8 rhoPlus trace_rhoPlus 0⟩

/-- C2 (code bug): the integrator has no numerical-instability guard.  The
initial matrix σz has zero trace; the Euler update preserves the trace, so
at every step the renormalization denominator `Re Tr(·)` of
`ρ / np.trace(ρ).real` is exactly zero, yet the run completes normally and
returns a full-length energy trace — nothing is raised and no distinct
error is surfaced (in `numpy` the division produces silently recorded
`NaN`s). -/
theorem run_has_no_trace_guard (p : UTFParams) (noise : ℕ → ℝ) (r : ℝ) :
    Matrix.trace σz = 0 ∧
      (∀ (t x xdot : ℝ) (ρ : Matrix (Fin 2) (Fin 2) ℂ),
        stepDenom p t x xdot ρ = (Matrix.trace ρ).re) ∧
      (∀ k, Matrix.trace ((stateAt p noise r σz k).ρ) = 0) ∧
      (run p noise r σz).Es.length = p.steps := by
  have hσz : Matrix.trace σz = 0 := by
    simp [σz, Matrix.trace_fin_two]
  refine ⟨hσz, ?_, ?_, ?_⟩
  · intro t x xdot ρ
    unfold stepDenom
    rw [trace_hermitize, trace_eulerRho]
    simp
  · intro k
    rw [stateAt_eq]
    exact rhoSeq_trace_zero p noise r σz hσz k
  · rw [run, stateAt_eq]
    simp

/-- C6: the energy trace returned by a completed run has exactly one
sample per step, and each sample is by construction the real number
`Re Tr(ρ_{n+1} · H_base)` — real-valued (the imaginary part is discarded
by the source's `np.real`) and an ordinary (finite) real in the exact
arithmetic of the model. -/
theorem run_energy_trace_characterization (p : UTFParams) (noise : ℕ → ℝ)
    (r : ℝ) (ρ0 : Matrix (Fin 2) (Fin 2) ℂ) :
    (run p noise r ρ0).Es = (List.range p.steps).map (ESeq p noise r ρ0) ∧
      (∀ n, ESeq p noise r ρ0 n =
        (Matrix.trace (rhoSeq p noise r ρ0 (n + 1) * H_base p)).re) := by
  constructor
  · rw [run, stateAt_eq]
  · intro n
    rfl

/-- C7: the drift trace of a run contains exactly one sample per loop
index `n` with `n > 10` (so drift is recorded only once more than ten
steps have elapsed), and that sample equals the absolute difference
between the current energy sample `E(n)` and the mean of the trailing
window `E_trace[max(0,n-200):n]` of at most 200 prior samples, which
excludes the current one. -/
theorem run_drift_trace_characterization (p : UTFParams) (noise : ℕ → ℝ)
    (r : ℝ) (ρ0 : Matrix (Fin 2) (Fin 2) ℂ) :
    (run p noise r ρ0).drifts =
      ((List.range p.steps).filter (fun n => 10 < n)).map
        (driftSpecAt p noise r ρ0) ∧
      (∀ n, driftSpecAt p noise r ρ0 n =
        |ESeq p noise r ρ0 n -
          listMean (((List.range n).map (ESeq p noise r ρ0)).drop
            (n - 200))|) ∧
      (∀ n, (((List.range n).map (ESeq p noise r ρ0)).drop
          (n - 200)).length = min n 200) := by
  refine ⟨?_, fun n => rfl, ?_⟩
  · rw [run, stateAt_eq]
  · intro n
    simp only [List.length_drop, List.length_map, List.length_range]
    omega

/-- C3 (code bug): `UTFParams` is a plain dataclass — a value with negative
`gamma` and negative `lam` is constructed with no rejection and no
clamping.  The `gamma` rate is clamped only inside the stepping code
(`_L_D` computes `sqrt(max(gamma, 0)) = 0`), and the negative `lam` is
silently propagated into the stepping code: the Hamiltonian modulation
`ε = 0.15*lam*(x-0.5)` and the kick coefficient `k = 0.1*lam*xdot` are
both nonzero (negative) at `x = 1`, `xdot = 1`. -/
theorem utfparams_accepts_negative_rates :
    ∃ p : UTFParams, p.gamma = -0.6 ∧ p.lam = -0.1 ∧
      Real.sqrt (max p.gamma 0.0) = 0 ∧
      epsMod p 1.0 < 0 ∧ kick p 1.0 < 0 := by
  refine ⟨{ gamma := -0.6, lam := -0.1 }, rfl, rfl, ?_, ?_, ?_⟩
  · rw [max_eq_right (by norm_num : (-0.6 : ℝ) ≤ 0.0)]
    norm_num [Real.sqrt_zero]
  · unfold epsMod
    norm_num
  · unfold kick
    norm_num

/-! ### Tuning-kernel selection facts -/

/-- The `idxmin` fold returns an element of the candidate list. -/
theorem foldl_minAdapt_mem (h : SweepRow) (t : List SweepRow) :
    t.foldl (fun b q => if q.adapt < b.adapt then q else b) h ∈ h :: t := by
  induction t generalizing h with
  | nil => simp
  | cons a t ih =>
    simp only [List.foldl_cons]
    by_cases ha : a.adapt < h.adapt
    · rw [if_pos ha]
      have := ih a
      simp only [List.mem_cons] at this ⊢
      tauto
    · rw [if_neg ha]
      have := ih h
      simp only [List.mem_cons] at this ⊢
      tauto

/-- The `idxmin` fold attains the minimal `adapt` over the candidates. -/
theorem foldl_minAdapt_le (h : SweepRow) (t : List SweepRow) :
    ∀ q ∈ h :: t,
      (t.foldl (fun b q => if q.adapt < b.adapt then q else b) h).adapt ≤
        q.adapt := by
  induction t generalizing h with
  | nil =>
    intro q hq
    simp only [List.mem_singleton] at hq
    subst hq
    simp
  | cons a t ih =>
    intro q hq
    simp only [List.foldl_cons]
    have hnext : (if a.adapt < h.adapt then a else h).adapt ≤ h.adapt ∧
        (if a.adapt < h.adapt then a else h).adapt ≤ a.adapt := by
      by_cases ha : a.adapt < h.adapt
      · rw [if_pos ha]; exact ⟨le_of_lt ha, le_refl _⟩
      · rw [if_neg ha]; exact ⟨le_refl _, le_of_not_lt ha⟩
    rcases List.mem_cons.mp hq with rfl | hq'
    · exact le_trans
        (ih _ _ (List.mem_cons_self _ _)) hnext.1
    · rcases List.mem_cons.mp hq' with rfl | hq''
      · exact le_trans (ih _ _ (List.mem_cons_self _ _)) hnext.2
      · exact ih _ q (List.mem_cons_of_mem _ hq'')

/-- C8: for every sweep table, if at least one row passed then
`run_local_tuning` selects a passing row of the table with the smallest
`adapt` value and appends exactly one provenance-tagged entry to the
append-only log; if no row passed it selects nothing and appends
nothing. -/
theorem run_local_tuning_selects_min_adapt (rows : List SweepRow)
    (prov : Provenance) (log : List TuningEntry) :
    ((∀ q ∈ rows, q.passed = false) →
      run_local_tuning rows prov log = (none, log)) ∧
    ((∃ q ∈ rows, q.passed = true) →
      ∃ b : SweepRow, (run_local_tuning rows prov log).1 = some b ∧
        b ∈ rows ∧ b.passed = true ∧
        (∀ q ∈ rows, q.passed = true → b.adapt ≤ q.adapt) ∧
        (run_local_tuning rows prov log).2 = log ++
          [⟨prov.timestamp, prov.git_commit, prov.zenodo_doi,
            prov.arxiv_version, b.r, b.tolerance, b.adapt, rows.length⟩]) := by
  cases hfil : rows.filter (fun q => q.passed) with
  | nil =>
    constructor
    · intro _
      simp only [run_local_tuning, selectBest, hfil]
    · intro ⟨q, hq, hqp⟩
      exfalso
      have : q ∈ rows.filter (fun q => q.passed) :=
        List.mem_filter.mpr ⟨hq, by simp [hqp]⟩
      rw [hfil] at this
      exact List.not_mem_nil q this
  | cons h t =>
    have hsel : selectBest rows =
        some (t.foldl (fun b q => if q.adapt < b.adapt then q else b) h) := by
      simp only [selectBest, hfil]
    set b := t.foldl (fun b q => if q.adapt < b.adapt then q else b) h with hb
    have hbmem : b ∈ rows.filter (fun q => q.passed) := by
      rw [hfil]; exact foldl_minAdapt_mem h t
    have hbrows : b ∈ rows := (List.mem_filter.mp hbmem).1
    have hbpassed : b.passed = true := by
      have := (List.mem_filter.mp hbmem).2
      simpa using this
    constructor
    · intro hall
      exact absurd (hall b hbrows) (by simp [hbpassed])
    · intro _
      refine ⟨b, ?_, hbrows, hbpassed, ?_, ?_⟩
      · simp only [run_local_tuning, hsel]
      · intro q hq hqp
        have hqfil : q ∈ rows.filter (fun q => q.passed) :=
          List.mem_filter.mpr ⟨hq, by simp [hqp]⟩
        rw [hfil] at hqfil
        exact foldl_minAdapt_le h t q hqfil
      · simp only [run_local_tuning, hsel, log_tuning_result]

/-- C8 witness: on a concrete two-row table with one passing row, the
kernel selects that row and appends exactly its provenance-tagged entry. -/
theorem run_local_tuning_selects_min_adapt_witness :
    (∃ q ∈ [(⟨19/5, 2/25, 1/250, true⟩ : SweepRow),
        ⟨18/5, 3/50, 3/1000, false⟩], q.passed = true) ∧
    (∃ b : SweepRow,
      (run_local_tuning [⟨19/5, 2/25, 1/250, true⟩, ⟨18/5, 3/50, 3/1000, false⟩]
        ⟨"2025-01-01", "abc123", "doi", "v1"⟩ []).1 = some b ∧
      b ∈ [(⟨19/5, 2/25, 1/250, true⟩ : SweepRow),
        ⟨18/5, 3/50, 3/1000, false⟩] ∧ b.passed = true ∧
      (∀ q ∈ [(⟨19/5, 2/25, 1/250, true⟩ : SweepRow),
        ⟨18/5, 3/50, 3/1000, false⟩], q.passed = true → b.adapt ≤ q.adapt) ∧
      (run_local_tuning [⟨19/5, 2/25, 1/250, true⟩, ⟨18/5, 3/50, 3/1000, false⟩]
        ⟨"2025-01-01", "abc123", "doi", "v1"⟩ []).2 = [] ++
        [⟨"2025-01-01", "abc123", "doi", "v1", b.r, b.tolerance, b.adapt,
          2⟩]) :=
  have hex : ∃ q ∈ [(⟨19/5, 2/25, 1/250, true⟩ : SweepRow),
      ⟨18/5, 3/50, 3/1000, false⟩], q.passed = true :=
    ⟨⟨19/5, 2/25, 1/250, true⟩, List.mem_cons_self _ _, rfl⟩
  ⟨hex,
    (run_local_tuning_selects_min_adapt
      [⟨19/5, 2/25, 1/250, true⟩, ⟨18/5, 3/50, 3/1000, false⟩]
      ⟨"2025-01-01", "abc123", "doi", "v1"⟩ []).2 hex⟩

/-! ### Sweep facts -/

/-- Every row of the sweep characterizes its `passed` flag as
`falsify_F_operator` of its `(tolerance, r)` coordinates only. -/
theorem mem_sweep_passed (q : FSweepRow)
    (hq : q ∈ run_real_sweep_results) :
    q.passed = falsify_F_operator 1000 q.tolerance q.r := by
  simp only [run_real_sweep_results, List.mem_flatMap, List.mem_map] at hq
  obtain ⟨r, -, tol, -, adapt, -, rfl⟩ := hq
  dsimp only

/-- C10: the `passed` flag of a sweep row does not depend on its `adapt`
coordinate: any two grid rows with the same `r` and the same `tolerance`
record the same `passed` value, because `falsify_F_operator` is called
without `adapt` and is a deterministic function of `(tolerance, r)`. -/
theorem sweep_passed_independent_of_adapt (q1 q2 : FSweepRow)
    (h1 : q1 ∈ run_real_sweep_results) (h2 : q2 ∈ run_real_sweep_results)
    (hr : q1.r = q2.r) (ht : q1.tolerance = q2.tolerance) :
    q1.passed = q2.passed := by
  rw [mem_sweep_passed q1 h1, mem_sweep_passed q2 h2, hr, ht]

/-- C10 witness: the two concrete grid rows sharing `r = 3.6` and
`tolerance = 0.06` but with different `adapt` coordinates have the same
`passed` flag. -/
theorem sweep_passed_independent_of_adapt_witness :
    (⟨3.6 + 0.2 * (Nat.cast 0 : ℝ) / 24, 0.06 + 0.04 * (Nat.cast 0 : ℝ) / 9,
        0.003 + 0.003 * (Nat.cast 0 : ℝ) / 4,
        falsify_F_operator 1000 (0.06 + 0.04 * (Nat.cast 0 : ℝ) / 9)
          (3.6 + 0.2 * (Nat.cast 0 : ℝ) / 24)⟩ : FSweepRow) ∈
      run_real_sweep_results ∧
    (⟨3.6 + 0.2 * (Nat.cast 0 : ℝ) / 24, 0.06 + 0.04 * (Nat.cast 0 : ℝ) / 9,
        0.003 + 0.003 * (Nat.cast 1 : ℝ) / 4,
        falsify_F_operator 1000 (0.06 + 0.04 * (Nat.cast 0 : ℝ) / 9)
          (3.6 + 0.2 * (Nat.cast 0 : ℝ) / 24)⟩ : FSweepRow) ∈
      run_real_sweep_results ∧
    (⟨3.6 + 0.2 * (Nat.cast 0 : ℝ) / 24, 0.06 + 0.04 * (Nat.cast 0 : ℝ) / 9,
        0.003 + 0.003 * (Nat.cast 0 : ℝ) / 4,
        falsify_F_operator 1000 (0.06 + 0.04 * (Nat.cast 0 : ℝ) / 9)
          (3.6 + 0.2 * (Nat.cast 0 : ℝ) / 24)⟩ : FSweepRow).passed =
      (⟨3.6 + 0.2 * (Nat.cast 0 : ℝ) / 24, 0.06 + 0.04 * (Nat.cast 0 : ℝ) / 9,
        0.003 + 0.003 * (Nat.cast 1 : ℝ) / 4,
        falsify_F_operator 1000 (0.06 + 0.04 * (Nat.cast 0 : ℝ) / 9)
          (3.6 + 0.2 * (Nat.cast 0 : ℝ) / 24)⟩ : FSweepRow).passed :=
  have hm1 : (⟨3.6 + 0.2 * (Nat.cast 0 : ℝ) / 24, 0.06 + 0.04 * (Nat.cast 0 : ℝ) / 9,
      0.003 + 0.003 * (Nat.cast 0 : ℝ) / 4,
      falsify_F_operator 1000 (0.06 + 0.04 * (Nat.cast 0 : ℝ) / 9)
        (3.6 + 0.2 * (Nat.cast 0 : ℝ) / 24)⟩ : FSweepRow) ∈
      run_real_sweep_results :=
    List.mem_flatMap.mpr ⟨3.6 + 0.2 * (Nat.cast 0 : ℝ) / 24,
      List.mem_map.mpr ⟨0, List.mem_range.mpr (by norm_num), rfl⟩,
      List.mem_flatMap.mpr ⟨0.06 + 0.04 * (Nat.cast 0 : ℝ) / 9,
        List.mem_map.mpr ⟨0, List.mem_range.mpr (by norm_num), rfl⟩,
        List.mem_map.mpr ⟨0.003 + 0.003 * (Nat.cast 0 : ℝ) / 4,
          List.mem_map.mpr ⟨0, List.mem_range.mpr (by norm_num), rfl⟩,
          rfl⟩⟩⟩
  have hm2 : (⟨3.6 + 0.2 * (Nat.cast 0 : ℝ) / 24, 0.06 + 0.04 * (Nat.cast 0 : ℝ) / 9,
      0.003 + 0.003 * (Nat.cast 1 : ℝ) / 4,
      falsify_F_operator 1000 (0.06 + 0.04 * (Nat.cast 0 : ℝ) / 9)
        (3.6 + 0.2 * (Nat.cast 0 : ℝ) / 24)⟩ : FSweepRow) ∈
      run_real_sweep_results :=
    List.mem_flatMap.mpr ⟨3.6 + 0.2 * (Nat.cast 0 : ℝ) / 24,
      List.mem_map.mpr ⟨0, List.mem_range.mpr (by norm_num), rfl⟩,
      List.mem_flatMap.mpr ⟨0.06 + 0.04 * (Nat.cast 0 : ℝ) / 9,
        List.mem_map.mpr ⟨0, List.mem_range.mpr (by norm_num), rfl⟩,
        List.mem_map.mpr ⟨0.003 + 0.003 * (Nat.cast 1 : ℝ) / 4,
          List.mem_map.mpr ⟨1, List.mem_range.mpr (by norm_num), rfl⟩,
          rfl⟩⟩⟩
  ⟨hm1, hm2, sweep_passed_independent_of_adapt _ _ hm1 hm2 rfl rfl⟩

/-- C5 counterexample: `tau_crit` is NOT strictly decreasing on all positive
arguments — below the `1e-8` floor the function is constant, so for
`lambda1 = 1e-10 < lambda2 = 1e-9` (both positive) the two values are equal,
refuting `tau_crit(lambda1) > tau_crit(lambda2)`. -/
theorem tau_crit_not_strict_below_floor :
    (0 : ℝ) < 1e-10 ∧ (1e-10 : ℝ) < 1e-9 ∧
      tau_crit (1e-10) = tau_crit (1e-9) := by
  refine ⟨by norm_num, by norm_num, ?_⟩
  unfold tau_crit
  rw [max_eq_right (by norm_num : (1e-10 : ℝ) ≤ 1e-8),
    max_eq_right (by norm_num : (1e-9 : ℝ) ≤ 1e-8)]

/-- C5 (amended): `tau_crit` is strictly decreasing on arguments at or above
the floor `1e-8`: for all `1e-8 ≤ lambda1 < lambda2`,
`tau_crit(lambda1) > tau_crit(lambda2)`. -/
theorem tau_crit_strictAnti_above_floor (l1 l2 : ℝ)
    (h1 : 1e-8 ≤ l1) (h12 : l1 < l2) :
    tau_crit l2 < tau_crit l1 := by
  unfold tau_crit
  have hm1 : max l1 1e-8 = l1 := max_eq_left h1
  have hm2 : max l2 1e-8 = l2 := max_eq_left (le_of_lt (lt_of_le_of_lt h1 h12))
  rw [hm1, hm2]
  have hl1 : (0 : ℝ) < l1 := lt_of_lt_of_le (by norm_num) h1
  have hl2 : (0 : ℝ) < l2 := lt_trans hl1 h12
  exact div_lt_div_of_pos_left (by norm_num) (mul_pos (by norm_num) hl1)
    (mul_lt_mul_of_pos_left h12 (by norm_num : (0:ℝ) < 2.0))

/-- C5 witness: the amended monotonicity theorem at the concrete pair
`(0.1, 0.2)`. -/
theorem tau_crit_strictAnti_witness :
    (1e-8 : ℝ) ≤ 0.1 ∧ (0.1 : ℝ) < 0.2 ∧ tau_crit 0.2 < tau_crit 0.1 :=
  ⟨by norm_num, by norm_num,
    tau_crit_strictAnti_above_floor 0.1 0.2 (by norm_num) (by norm_num)⟩

end UTF
